import Mathlib

/-!
Verification of the go-floki/jade template compiler (parser.go, compiler.go)
against its natural-language specification.

The development shallowly embeds the parts of the Go source that the
checked properties are about:

* the named-block merge step of `Parser.Parse` (parser.go),
* the memoization wrapper of `Parser.Parse` (parser.go),
* `parseExtends` (parser.go),
* the expression linearizer `visitExpression` together with
  `hasFunctionWithName` (compiler.go),
* the attribute-collection and attribute-emission parts of `visitTag`,
  with `visitInterpolation` / `visitJSInterpolation` (compiler.go),
* the error path of `CompileWriter` / `CompileString` (compiler.go).

Go maps are embedded as association lists or lookup functions, Go panics
as `Except`/`Option` error values, and the mutable compiler state
(temporary-variable counter, output buffer, operand stack) as explicit
state records.  Emitted template text is modelled as Lean `String`s; the
output buffer is modelled as the list of complete emitted instructions.
-/

set_option autoImplicit false

namespace Jade

/-! ### Byte-lexicographic string order

`visitTag` sorts attribute names with Go's `sort.Strings`, whose contract
is byte-lexicographic ordering.  We embed that order on `String.data`
(for the ASCII names occurring here, code-point order and byte order
coincide) and embed the sort itself as a structurally recursive insertion
sort, which realizes the `sort.Strings` contract: a sorted permutation of
its input. -/

/-- Lexicographic less-or-equal on character lists, the contract of Go's
string comparison: the first differing character decides, and a prefix is
smaller than any of its extensions. -/
def lexLe : List Char → List Char → Bool
  | [], _ => true
  | _ :: _, [] => false
  | a :: as, b :: bs => if a = b then lexLe as bs else decide (a < b)

theorem lexLe_refl (x : List Char) : lexLe x x = true := by
  induction x with
  | nil => rfl
  | cons a as ih => simp [lexLe, ih]

theorem lexLe_total (x y : List Char) : lexLe x y = true ∨ lexLe y x = true := by
  induction x generalizing y with
  | nil => left; rfl
  | cons a as ih =>
    cases y with
    | nil => right; rfl
    | cons b bs =>
      by_cases hab : a = b
      · subst hab
        rcases ih bs with h | h <;> simp [lexLe, h]
      · rcases lt_trichotomy a b with h | h | h
        · left; simp [lexLe, hab, h]
        · exact absurd h hab
        · right
          have hba : ¬ b = a := fun hba => hab hba.symm
          simp [lexLe, hba, h]

theorem lexLe_trans (x y z : List Char) (hxy : lexLe x y = true)
    (hyz : lexLe y z = true) : lexLe x z = true := by
  induction x generalizing y z with
  | nil => rfl
  | cons a as ih =>
    cases y with
    | nil => simp [lexLe] at hxy
    | cons b bs =>
      cases z with
      | nil => simp [lexLe] at hyz
      | cons c cs =>
        by_cases hab : a = b <;> by_cases hbc : b = c
        · subst hab; subst hbc
          simp only [lexLe, if_pos rfl] at *
          exact ih bs cs hxy hyz
        · subst hab
          simp only [lexLe, if_pos rfl, if_neg hbc] at *
          simp only [decide_eq_true_eq] at hyz
          simp [hbc, hyz]
        · subst hbc
          simp only [lexLe, if_pos rfl, if_neg hab] at *
          simp only [decide_eq_true_eq] at hxy
          simp [hab, hxy]
        · simp only [lexLe, if_neg hab, if_neg hbc, decide_eq_true_eq] at hxy hyz
          have hac : a < c := lt_trans hxy hyz
          have : a ≠ c := ne_of_lt hac
          simp [lexLe, this, hac]

theorem lexLe_antisymm (x y : List Char) (hxy : lexLe x y = true)
    (hyx : lexLe y x = true) : x = y := by
  induction x generalizing y with
  | nil =>
    cases y with
    | nil => rfl
    | cons b bs => simp [lexLe] at hyx
  | cons a as ih =>
    cases y with
    | nil => simp [lexLe] at hxy
    | cons b bs =>
      by_cases hab : a = b
      · subst hab
        simp only [lexLe, if_pos rfl] at hxy hyx
        rw [ih bs hxy hyx]
      · have hba : ¬ b = a := fun h => hab h.symm
        simp only [lexLe, if_neg hab, if_neg hba, decide_eq_true_eq] at hxy hyx
        exact absurd (lt_trans hxy hyx) (lt_irrefl a)

/-- Byte-lexicographic order on strings, the comparison used by Go's
`sort.Strings` in `visitTag`. -/
def strLe (a b : String) : Bool := lexLe a.data b.data

/-- Propositional form of `strLe`, used to state sortedness. -/
def strLeP (a b : String) : Prop := strLe a b = true

instance : DecidableRel strLeP := fun a b => by
  unfold strLeP; infer_instance

theorem strLe_antisymm (a b : String) (h1 : strLeP a b) (h2 : strLeP b a) : a = b := by
  have h := lexLe_antisymm a.data b.data h1 h2
  cases a; cases b
  exact congrArg String.mk h

instance : IsAntisymm String strLeP := ⟨strLe_antisymm⟩

/-- Insertion step of the sort that realizes the `sort.Strings` contract. -/
def insertSorted (x : String) : List String → List String
  | [] => [x]
  | y :: ys => if strLe x y then x :: y :: ys else y :: insertSorted x ys

/-- Embedding of `sort.Strings` applied to the attribute-name slice in
`visitTag`: `sort.Strings` is external library code whose contract is to
sort its input byte-lexicographically; an insertion sort realizes that
contract structurally. -/
def sortStrings : List String → List String
  | [] => []
  | x :: xs => insertSorted x (sortStrings xs)

theorem insertSorted_perm (x : String) (l : List String) :
    (insertSorted x l).Perm (x :: l) := by
  induction l with
  | nil => exact List.Perm.refl _
  | cons y ys ih =>
    by_cases h : strLe x y
    · simp [insertSorted, h]
    · simp only [insertSorted, h, Bool.false_eq_true, if_false]
      exact (List.Perm.cons y ih).trans (List.Perm.swap x y ys)

theorem sortStrings_perm (l : List String) : (sortStrings l).Perm l := by
  induction l with
  | nil => exact List.Perm.refl _
  | cons x xs ih =>
    exact (insertSorted_perm x (sortStrings xs)).trans (List.Perm.cons x ih)

theorem insertSorted_sorted (x : String) (l : List String)
    (h : List.Sorted strLeP l) : List.Sorted strLeP (insertSorted x l) := by
  induction l with
  | nil => simp [insertSorted, List.Sorted]
  | cons y ys ih =>
    rw [List.sorted_cons] at h
    by_cases hxy : strLe x y
    · simp only [insertSorted, hxy, if_true]
      rw [List.sorted_cons]
      constructor
      · intro b hb
        rcases List.mem_cons.mp hb with rfl | hb
        · exact hxy
        · exact lexLe_trans _ _ _ hxy (h.1 b hb)
      · rw [List.sorted_cons]; exact h
    · simp only [insertSorted, hxy, Bool.false_eq_true, if_false]
      rw [List.sorted_cons]
      constructor
      · intro b hb
        have hyx : strLeP y x := by
          rcases lexLe_total x.data y.data with ht | ht
          · exact absurd ht hxy
          · exact ht
        have := (insertSorted_perm x ys).mem_iff.mp hb
        rcases List.mem_cons.mp this with rfl | hb'
        · exact hyx
        · exact h.1 b hb'
      · exact ih h.2

theorem sortStrings_sorted (l : List String) :
    List.Sorted strLeP (sortStrings l) := by
  induction l with
  | nil => simp [sortStrings, List.Sorted]
  | cons x xs ih => exact insertSorted_sorted x (sortStrings xs) ih

theorem sortStrings_eq_of_perm (l1 l2 : List String) (h : l1.Perm l2) :
    sortStrings l1 = sortStrings l2 :=
  @List.eq_of_perm_of_sorted String strLeP _ _ _
    ((sortStrings_perm l1).trans (h.trans (sortStrings_perm l2).symm))
    (sortStrings_sorted l1) (sortStrings_sorted l2)

/-! ### Parser data model (parser.go)

`Block` is an ordered child sequence with `push`/`pushFront`; `NamedBlock`
adds a name and a modifier.  The merge step never inspects the child
nodes themselves, so the child node type is a type parameter here and is
instantiated with concrete types in witnesses. -/

/-- Modifier of a named block (`NamedBlockDefault` is the zero value). -/
inductive NamedBlockModifier where
  | NamedBlockDefault
  | NamedBlockAppend
  | NamedBlockPrepend
  deriving DecidableEq, Repr

/-- Embedding of `parser.Block`: an ordered sequence of child nodes. -/
structure Block (α : Type) where
  Children : List α
  deriving DecidableEq, Repr

/-- Embedding of `Block.push`: append one child at the back. -/
def Block.push {α : Type} (b : Block α) (n : α) : Block α :=
  ⟨b.Children ++ [n]⟩

/-- Embedding of `Block.pushFront`: insert one child at the front. -/
def Block.pushFront {α : Type} (b : Block α) (n : α) : Block α :=
  ⟨n :: b.Children⟩

/-- Embedding of `parser.NamedBlock`: a named, modifier-tagged block. -/
structure NamedBlock (α : Type) where
  Name : String
  Modifier : NamedBlockModifier
  Block : Block α
  deriving DecidableEq, Repr

/-- Loop `for i := 0; i < len(ours.Children); i++ { prev.push(ours.Children[i]) }`
from the `NamedBlockAppend` arm of the merge in `Parser.Parse`. -/
def appendLoop {α : Type} (prev : Block α) (ours : List α) : Block α :=
  ours.foldl Block.push prev

/-- Loop `for i := len(ours.Children) - 1; i >= 0; i-- { prev.pushFront(ours.Children[i]) }`
from the `NamedBlockPrepend` arm of the merge in `Parser.Parse`. -/
def prependLoop {α : Type} (prev : Block α) (ours : List α) : Block α :=
  ours.reverse.foldl Block.pushFront prev

/-- Embedding of one iteration of the merge loop in `Parser.Parse`
(parser.go): given this file's named-block table (the Go map
`p.namedBlocks`, embedded as a lookup function) and one named block
`prev` declared by the parent, produce the merged form of `prev`. -/
def mergeNamedBlock {α : Type} (table : String → Option (NamedBlock α))
    (prev : NamedBlock α) : NamedBlock α :=
  match table prev.Name with
  | none => prev
  | some ours =>
    match ours.Modifier with
    | .NamedBlockAppend =>
      { prev with Block := appendLoop prev.Block ours.Block.Children }
    | .NamedBlockPrepend =>
      { prev with Block := prependLoop prev.Block ours.Block.Children }
    | .NamedBlockDefault =>
      { prev with Block := ⟨ours.Block.Children⟩ }

/-- Merge semantics written from the specification's words, for
comparison with `mergeNamedBlock`: absent → unchanged; Append → parent's
children then child's; Prepend → child's children then parent's;
Default → child's children outright. -/
def specMergeNamedBlock {α : Type} (table : String → Option (NamedBlock α))
    (prev : NamedBlock α) : NamedBlock α :=
  match table prev.Name with
  | none => prev
  | some ours =>
    match ours.Modifier with
    | .NamedBlockAppend =>
      { prev with Block := ⟨prev.Block.Children ++ ours.Block.Children⟩ }
    | .NamedBlockPrepend =>
      { prev with Block := ⟨ours.Block.Children ++ prev.Block.Children⟩ }
    | .NamedBlockDefault =>
      { prev with Block := ⟨ours.Block.Children⟩ }

theorem appendLoop_eq {α : Type} (prev : Block α) (ours : List α) :
    appendLoop prev ours = ⟨prev.Children ++ ours⟩ := by
  induction ours generalizing prev with
  | nil => simp [appendLoop]
  | cons a as ih =>
    have h1 : appendLoop prev (a :: as) = appendLoop (Block.push prev a) as := rfl
    rw [h1, ih]
    simp [Block.push]

theorem prependLoop_eq {α : Type} (prev : Block α) (ours : List α) :
    prependLoop prev ours = ⟨ours ++ prev.Children⟩ := by
  induction ours generalizing prev with
  | nil => simp [prependLoop]
  | cons a as ih =>
    have h1 : prependLoop prev (a :: as) =
        List.foldl Block.pushFront prev (as.reverse ++ [a]) := by
      simp [prependLoop]
    rw [h1, List.foldl_append]
    have h2 : List.foldl Block.pushFront prev as.reverse = prependLoop prev as := rfl
    rw [h2, ih]
    simp [Block.pushFront]

/-- Claim C1: in the merge step of `Parser.Parse`, a parent named block
with an Append-modifier override gets the child's children concatenated
after its own, a Prepend-modifier override gets them inserted before its
own, a Default-modifier override replaces its children outright, and a
parent block with no same-named child entry is left unchanged; concretely
`[P1,P2]` with child `[C1,C2]` yields `[P1,P2,C1,C2]` (Append),
`[C1,C2,P1,P2]` (Prepend) and `[C1,C2]` (Default).  Stated as: the code's
merge (`mergeNamedBlock`, with its push/pushFront loops) coincides with
the specification's merge (`specMergeNamedBlock`), plus the three
concrete scenarios and the absent-entry case. -/
theorem claim_C1 :
    (∀ (α : Type) (table : String → Option (NamedBlock α)) (prev : NamedBlock α),
        mergeNamedBlock table prev = specMergeNamedBlock table prev) ∧
    (mergeNamedBlock
        (fun n => if n = "X" then some ⟨"X", .NamedBlockAppend, ⟨[3, 4]⟩⟩ else none)
        ⟨"X", .NamedBlockDefault, ⟨[1, 2]⟩⟩).Block.Children = [1, 2, 3, 4] ∧
    (mergeNamedBlock
        (fun n => if n = "X" then some ⟨"X", .NamedBlockPrepend, ⟨[3, 4]⟩⟩ else none)
        ⟨"X", .NamedBlockDefault, ⟨[1, 2]⟩⟩).Block.Children = [3, 4, 1, 2] ∧
    (mergeNamedBlock
        (fun n => if n = "X" then some ⟨"X", .NamedBlockDefault, ⟨[3, 4]⟩⟩ else none)
        ⟨"X", .NamedBlockDefault, ⟨[1, 2]⟩⟩).Block.Children = [3, 4] ∧
    mergeNamedBlock (fun _ => (none : Option (NamedBlock Nat)))
        ⟨"X", .NamedBlockDefault, ⟨[1, 2]⟩⟩ = ⟨"X", .NamedBlockDefault, ⟨[1, 2]⟩⟩ := by
  refine ⟨?_, by decide, by decide, by decide, rfl⟩
  intro α table prev
  unfold mergeNamedBlock specMergeNamedBlock
  cases h : table prev.Name with
  | none => rfl
  | some ours =>
    cases hm : ours.Modifier <;> simp [appendLoop_eq, prependLoop_eq]

/-! ### Tokens and parser state (parser.go) -/

/-- Kind of a scanner token: the closed set enumerated in parser.go. -/
inductive TokenKind where
  | tokEOF
  | tokDoctype
  | tokComment
  | tokIndent
  | tokOutdent
  | tokBlank
  | tokId
  | tokClassName
  | tokTag
  | tokText
  | tokAttribute
  | tokAttributeList
  | tokIf
  | tokElse
  | tokUnless
  | tokEach
  | tokAssignment
  | tokImport
  | tokNamedBlock
  | tokExtends
  | tokMixin
  | tokMixinCall
  | tokBuffered
  | tokSemicolon
  | tokNewLine
  deriving DecidableEq, Repr

/-- Embedding of a scanner token: a kind, a primary value, and the
string-keyed side-data map (Go `map[string]string`, as an association
list). -/
structure Token where
  Kind : TokenKind
  Value : String
  Data : List (String × String)
  deriving DecidableEq, Repr

/-- Embedding of the `Parser` struct state that the checked claims
depend on: the memoized `result`, the scanner's remaining `tokens`, the
per-file named-block table, and the `parent` parser (abstracted to a
handle of type `π`, since only its identity matters here). -/
structure ParserState (α π : Type) where
  result : Option (Block α)
  tokens : List Token
  namedBlocks : String → Option (NamedBlock α)
  parent : Option π

/-- Embedding of the memoization wrapper of `Parser.Parse` (parser.go):
`if p.result != nil { return p.result }`, then the token loop and the
parent merge (lines 98-139, abstracted as the `body` argument, so the
theorem below holds for the actual body in particular), then
`p.result = block; return block`. -/
def ParseGo {α π : Type}
    (body : ParserState α π → Block α × ParserState α π)
    (st : ParserState α π) : Block α × ParserState α π :=
  match st.result with
  | some b => (b, st)
  | none =>
    let r := body st
    (r.1, { r.2 with result := some r.1 })

/-- Claim C3: re-invoking `Parse` after a first invocation returns the
cached first result with the parser state (tokens included) unchanged,
and it does so for an arbitrary second parse body `body2` — i.e. without
re-running parsing or merging. -/
theorem claim_C3 {α π : Type}
    (body body2 : ParserState α π → Block α × ParserState α π)
    (st : ParserState α π) :
    ParseGo body2 (ParseGo body st).2 = ((ParseGo body st).1, (ParseGo body st).2) := by
  cases h : st.result with
  | some b => simp [ParseGo, h]
  | none => simp [ParseGo, h]

/-- Embedding of `newBlock()`. -/
def newBlock {α : Type} : Block α := ⟨[]⟩

/-- Embedding of `Parser.parseExtends` (parser.go): a second parent is a
fatal error; otherwise the `extends` token is consumed, the target is
resolved and parsed (abstracted as `resolve`, covering
`parseRelativeFile` + the parent's `Parse()`), the parent is recorded,
and an empty placeholder block is returned. -/
def parseExtends {α π : Type} (resolve : String → π) (st : ParserState α π) :
    Except String (Block α × ParserState α π) :=
  match st.parent with
  | some _ => .error "Unable to extend multiple parent templates."
  | none =>
    match st.tokens with
    | tok :: rest =>
      if tok.Kind = .tokExtends then
        .ok (newBlock, { st with tokens := rest, parent := some (resolve tok.Value) })
      else .error "Unexpected token"
    | [] => .error "Unexpected token"

/-- Claim C8: parsing a second `extends` once a parent is established is
a fatal error, and parsing a single `extends` succeeds and establishes
exactly the resolved parent. -/
theorem claim_C8 {α π : Type} (resolve : String → π) (st : ParserState α π) :
    (∀ q, st.parent = some q →
        parseExtends resolve st = .error "Unable to extend multiple parent templates.") ∧
    (∀ tok rest, st.parent = none → st.tokens = tok :: rest →
        tok.Kind = .tokExtends →
        parseExtends resolve st =
          .ok (newBlock, { st with tokens := rest, parent := some (resolve tok.Value) })) := by
  constructor
  · intro q hq
    simp [parseExtends, hq]
  · intro tok rest hp ht hk
    simp [parseExtends, hp, ht, hk]

/-- Witness for C8: both branches at concrete parser states — one with a
parent already established (second `extends` fails) and one without (the
`extends` succeeds and records the resolved parent). -/
theorem claim_C8_witness :
    (parseExtends (fun _ => (0 : Nat))
        (⟨none, [⟨.tokExtends, "layout", []⟩], fun _ => none, some 7⟩ :
          ParserState Nat Nat) =
      .error "Unable to extend multiple parent templates.") ∧
    parseExtends (fun _ => (0 : Nat))
        (⟨none, [⟨.tokExtends, "layout", []⟩], fun _ => none, none⟩ :
          ParserState Nat Nat) =
      .ok (newBlock, ⟨none, [], fun _ => none, some 0⟩) := by
  constructor
  · exact (claim_C8 (fun _ => (0 : Nat))
      ⟨none, [⟨.tokExtends, "layout", []⟩], fun _ => none, some 7⟩).1 7 rfl
  · exact (claim_C8 (fun _ => (0 : Nat))
      ⟨none, [⟨.tokExtends, "layout", []⟩], fun _ => none, none⟩).2
      ⟨.tokExtends, "layout", []⟩ [] rfl rfl rfl

/-! ### Expression transpiler (compiler.go, `visitExpression`)

`visitExpression` walks a parsed Go expression, writing single-assignment
instructions into the compiler's buffer and passing operand references
through an explicit stack.  The embedding makes the mutable compiler
state explicit: the temporary-variable counter, the output buffer
(modelled as the list of complete emitted instructions — Go writes each
instruction in several `c.write` pieces), and the operand stack.  Literal
braces in emitted template text are written with `\x7b`/`\x7d` escapes. -/

/-- Binary operators of go/token that `visitExpression` supports (any
other operator hits the `default:` panic arm, so the embedded operator
type is exactly the supported set).  `orTok` is go/token's `OR` (bitwise
`|`), handled by an early-return arm emitting a template pipeline. -/
inductive BinOp where
  | orTok
  | add
  | sub
  | mul
  | quo
  | rem
  | land
  | lor
  | eql
  | neq
  | lss
  | gtr
  | leq
  | geq
  deriving DecidableEq, Repr

/-- Unary operators that `visitExpression` supports. -/
inductive UnOp where
  | sub
  | add
  | not
  deriving DecidableEq, Repr

/-- Embedding of the `go/ast` expression forms that `visitExpression`
handles (`ast.BinaryExpr`, `ast.UnaryExpr`, `ast.ParenExpr`,
`ast.BasicLit`, `ast.Ident`, `ast.SelectorExpr`, `ast.CallExpr`; any
other form hits the final panic arm). -/
inductive GoExpr where
  | binary (op : BinOp) (x y : GoExpr)
  | unary (op : UnOp) (x : GoExpr)
  | paren (x : GoExpr)
  | basicLit (value : String)
  | ident (name : String)
  | selector (x : GoExpr) (sel : String)
  | call (fn : GoExpr) (args : List GoExpr)
  deriving Repr

/-- Mutable compiler state used by `visitExpression`: the
temporary-variable counter `tempvarIndex`, the output buffer (as the list
of complete emitted instructions), and the operand stack. -/
structure CState where
  tempvarIndex : Nat
  buffer : List String
  stack : List String
  deriving DecidableEq, Repr

/-- Embedding of `Compiler.tempvar`: bump the counter and build
`"$__jade_" + strconv.Itoa(c.tempvarIndex)`. -/
def tempvar (s : CState) : String × CState :=
  let i := s.tempvarIndex + 1
  ("$__jade_" ++ Nat.repr i, { s with tempvarIndex := i })

/-- Embedding of the local `pop` closure of `visitExpression`: an empty
stack yields the empty string. -/
def popStack (s : CState) : String × CState :=
  match s.stack with
  | [] => ("", s)
  | v :: rest => (v, { s with stack := rest })

/-- Push one operand reference (`stack.PushFront`). -/
def pushStack (v : String) (s : CState) : CState :=
  { s with stack := v :: s.stack }

/-- Append one complete emitted instruction to the buffer. -/
def emit (instr : String) (s : CState) : CState :=
  { s with buffer := s.buffer ++ [instr] }

/-- The `builtinFunctions` array of compiler.go. -/
def builtinFunctions : List String :=
  ["len", "print", "printf", "println", "urlquery", "js", "json", "index",
   "html", "unescaped"]

/-- Function-name environment of a compiler instance: the custom
registry `Options.Funcs` and the runtime table `FuncMap`.  Only name
membership matters to the embedded code, so both are name lists. -/
structure FuncsCfg where
  customFuncs : List String
  runtimeFuncs : List String

/-- Embedding of `Compiler.hasFunctionWithName`: the name is recognized
when it is in `Options.Funcs` or in `FuncMap`. -/
def hasFunctionWithName (cfg : FuncsCfg) (name : String) : Bool :=
  cfg.customFuncs.contains name || cfg.runtimeFuncs.contains name

/-- The `"__DOLLAR__"` marker substituted for `$` before Go-parsing an
expression (`visitRawInterpolation`). -/
def dollarName : String := "__DOLLAR__"

/-- Embedding of
`len(name) >= len("__DOLLAR__") && name[:len("__DOLLAR__")] == "__DOLLAR__"`. -/
def hasDollarMark (n : String) : Bool :=
  n.data.take 10 == dollarName.data

/-- Embedding of `name[len("__DOLLAR__"):]`. -/
def dropDollar (n : String) : String :=
  String.mk (n.data.drop 10)

/-- Embedding of the `ast.Ident` arm of `visitExpression` (compiler.go):
sigil-marked names map back to `$`-forms (`"__DOLLAR__"` alone to `.`),
`nil` is pushed as itself, a recognized function name is pushed bare, and
any other name is pushed as a context field lookup `.name`. -/
def resolveIdent (cfg : FuncsCfg) (n : String) : String :=
  if hasDollarMark n then
    if n = dollarName then "." else "$" ++ dropDollar n
  else if n = "nil" then n
  else if hasFunctionWithName cfg n then n
  else "." ++ n

/-- Operator text and negate flag for the non-`|` binary operators of
the Go switch in `visitExpression` (`NEQ`, `LEQ` and `GEQ` write the
complementary primitive and set `negate`).  The `orTok` row is
unreachable: the `|` arm returns before this switch. -/
def binOpText : BinOp → String × Bool
  | .add => ("__jade_add ", false)
  | .sub => ("__jade_sub ", false)
  | .mul => ("__jade_mul ", false)
  | .quo => ("__jade_quo ", false)
  | .rem => ("__jade_rem ", false)
  | .land => ("and ", false)
  | .lor => ("or ", false)
  | .eql => ("__jade_eql ", false)
  | .neq => ("__jade_eql ", true)
  | .lss => ("__jade_lss ", false)
  | .gtr => ("__jade_gtr ", false)
  | .leq => ("__jade_gtr ", true)
  | .geq => ("__jade_lss ", true)
  | .orTok => ("", false)

/-- Operator text for the unary operators of `visitExpression`. -/
def unOpText : UnOp → String
  | .sub => "__jade_minus "
  | .add => "__jade_plus "
  | .not => "not "

/-- Loop `for i := 0; i < len(ce.Args); i++ { c.write(" "); c.write(pop()) }`
from the `ast.CallExpr` arm: pop one argument reference per argument and
append it to the instruction under construction. -/
def drainArgs : Nat → String × CState → String × CState
  | 0, p => p
  | k + 1, (acc, s) =>
    let p := popStack s
    drainArgs k (acc ++ " " ++ p.1, p.2)

mutual

/-- Embedding of the local `exec` closure of `visitExpression`
(compiler.go): post-order traversal emitting one single-assignment
instruction per operation and passing operand references through the
stack. -/
def exec (cfg : FuncsCfg) : GoExpr → CState → CState
  | .binary op x y, s0 =>
    let s1 := exec cfg y s0
    let s2 := exec cfg x s1
    let np := tempvar s2
    match op with
    | .orTok =>
      let pa := popStack np.2
      let pb := popStack pa.2
      pushStack np.1
        (emit ("\x7b\x7b" ++ np.1 ++ " := " ++ pa.1 ++ " | " ++ pb.1 ++ "\x7d\x7d") pb.2)
    | _ =>
      let ot := binOpText op
      let pa := popStack np.2
      let pb := popStack pa.2
      let s6 := emit ("\x7b\x7b" ++ np.1 ++ " := " ++ ot.1 ++ pa.1 ++ " " ++ pb.1 ++ "\x7d\x7d") pb.2
      if ot.2 then
        let np2 := tempvar s6
        pushStack np2.1
          (emit ("\x7b\x7b" ++ np2.1 ++ " := not " ++ np.1 ++ "\x7d\x7d") np2.2)
      else
        pushStack np.1 s6
  | .unary op x, s0 =>
    let s1 := exec cfg x s0
    let np := tempvar s1
    let pa := popStack np.2
    pushStack np.1
      (emit ("\x7b\x7b" ++ np.1 ++ " := " ++ unOpText op ++ pa.1 ++ "\x7d\x7d") pa.2)
  | .paren x, s0 => exec cfg x s0
  | .basicLit v, s0 => pushStack v s0
  | .ident n, s0 => pushStack (resolveIdent cfg n) s0
  | .selector x sel, s0 =>
    let s1 := exec cfg x s0
    let px := popStack s1
    let x1 := if px.1 = "." then "" else px.1
    let np := tempvar px.2
    pushStack np.1
      (emit ("\x7b\x7b" ++ np.1 ++ " := " ++ x1 ++ "." ++ sel ++ "\x7d\x7d") np.2)
  | .call fn args, s0 =>
    let s1 := execArgsRev cfg args s0
    let np := tempvar s1
    let hp : String × CState :=
      match fn with
      | .ident n =>
        if builtinFunctions.contains n then
          ("\x7b\x7b" ++ np.1 ++ " := " ++ n, np.2)
        else
          ("\x7b\x7b" ++ np.1 ++ " := " ++ resolveIdent cfg n, np.2)
      | .selector sx sel =>
        let s2 := exec cfg sx np.2
        let px := popStack s2
        let x1 := if px.1 = "." then "" else px.1
        ("\x7b\x7b" ++ np.1 ++ " := " ++ x1 ++ "." ++ sel ++ " ", px.2)
      | other =>
        let s2 := exec cfg other np.2
        let pf := popStack s2
        ("\x7b\x7b" ++ np.1 ++ " := " ++ pf.1, pf.2)
    let lp := drainArgs args.length hp
    pushStack np.1 (emit (lp.1 ++ "\x7d\x7d") lp.2)

/-- Loop `for i := len(ce.Args) - 1; i >= 0; i-- { exec(ce.Args[i]) }`
from the `ast.CallExpr` arm: arguments are evaluated last-to-first. -/
def execArgsRev (cfg : FuncsCfg) : List GoExpr → CState → CState
  | [], s => s
  | a :: as, s => exec cfg a (execArgsRev cfg as s)

end

/-- Embedding of the tail of `visitExpression`: run `exec` on the whole
expression and pop the final value reference. -/
def visitExpression (cfg : FuncsCfg) (e : GoExpr) (s : CState) : String × CState :=
  popStack (exec cfg e s)

/-- Complementary primitive named by the specification for the negated
comparisons: `eq` for `!=`, `gt` for `<=`, `lt` for `>=` (with the
runtime prefix and the trailing space the emitter uses). -/
def complementaryPrimitive : BinOp → String
  | .neq => "__jade_eql "
  | .leq => "__jade_gtr "
  | .geq => "__jade_lss "
  | _ => ""

/-- Lowering shape claimed by the specification for `!=`, `<=`, `>=`:
after both operands are reduced (their references being the top two
stack entries), one instruction binds a fresh temporary to the
complementary primitive applied to the operands, one further instruction
binds a second fresh temporary to the boolean negation of the first, and
that second temporary replaces the operands as the value reference. -/
def specNegatedLowering (prim : String) (s2 : CState) : CState :=
  let name := "$__jade_" ++ Nat.repr (s2.tempvarIndex + 1)
  let negname := "$__jade_" ++ Nat.repr (s2.tempvarIndex + 2)
  let a := s2.stack.headD ""
  let b := s2.stack.tail.headD ""
  { tempvarIndex := s2.tempvarIndex + 2,
    buffer := s2.buffer ++
      ["\x7b\x7b" ++ name ++ " := " ++ prim ++ a ++ " " ++ b ++ "\x7d\x7d",
       "\x7b\x7b" ++ negname ++ " := not " ++ name ++ "\x7d\x7d"],
    stack := negname :: s2.stack.drop 2 }

/-- Claim C2: every `!=`, `<=`, `>=` binary expression is lowered by
`exec` as the complementary primitive (`eq`, `gt`, `lt` respectively)
bound to a fresh temporary, followed by exactly one boolean-negation
instruction bound to a second fresh temporary, which becomes the
expression's value reference. -/
theorem claim_C2 (cfg : FuncsCfg) (op : BinOp)
    (hop : op = .neq ∨ op = .leq ∨ op = .geq) (x y : GoExpr) (s0 : CState) :
    exec cfg (.binary op x y) s0 =
      specNegatedLowering (complementaryPrimitive op) (exec cfg x (exec cfg y s0)) := by
  rcases hop with rfl | rfl | rfl <;>
  · simp only [exec]
    generalize exec cfg x (exec cfg y s0) = s2
    obtain ⟨i, buf, stk⟩ := s2
    rcases stk with _ | ⟨a, _ | ⟨b, rest⟩⟩ <;>
      simp [tempvar, popStack, pushStack, emit, binOpText,
        specNegatedLowering, complementaryPrimitive]

/-- Witness for C2: the concrete lowering of `a != b` from a fresh
compiler state, with the two bound temporaries distinct. -/
theorem claim_C2_witness :
    exec ⟨[], []⟩ (.binary .neq (.ident "a") (.ident "b")) ⟨0, [], []⟩ =
      ⟨2, ["\x7b\x7b$__jade_1 := __jade_eql .a .b\x7d\x7d",
           "\x7b\x7b$__jade_2 := not $__jade_1\x7d\x7d"], ["$__jade_2"]⟩ ∧
    ("$__jade_1" : String) ≠ "$__jade_2" := by
  constructor
  · exact (claim_C2 ⟨[], []⟩ .neq (Or.inl rfl) (.ident "a") (.ident "b")
      ⟨0, [], []⟩).trans (by decide)
  · decide

/-- Modelled from the spec: the name set of the runtime function table
`FuncMap` (defined in runtime.go, which is not under src/; compiler.go
only references it).  Section 6 of the specification lists the
primitives the executor supplies — arithmetic, comparisons,
negation-support, a script-context-safe output primitive, unescaped
output and a structured-data encoding builtin.  Only name membership
matters to `hasFunctionWithName`; no entry is named `nil`. -/
def specFuncMapNames : List String :=
  ["__jade_add", "__jade_sub", "__jade_mul", "__jade_quo", "__jade_rem",
   "__jade_eql", "__jade_lss", "__jade_gtr", "__jade_minus", "__jade_plus",
   "json", "unescaped", "safeJS"]

/-- Compiler function environment with no custom functions and the
spec-modelled runtime table. -/
def specCfg : FuncsCfg := ⟨[], specFuncMapNames⟩

/-- Claim C4, amended: a bare identifier that is neither sigil-marked
nor the predeclared `nil` resolves to a bare function-name reference
exactly when `hasFunctionWithName` recognizes it, and to a context field
lookup `.name` otherwise (the two forms being distinct). -/
theorem claim_C4 (cfg : FuncsCfg) (n : String) (s : CState)
    (h1 : hasDollarMark n = false) (h2 : n ≠ "nil") :
    (exec cfg (.ident n) s =
      pushStack (if hasFunctionWithName cfg n then n else "." ++ n) s) ∧
    ("." ++ n) ≠ n := by
  constructor
  · have hr : resolveIdent cfg n = if hasFunctionWithName cfg n then n else "." ++ n := by
      unfold resolveIdent
      rw [h1, if_neg (by simp), if_neg h2]
    show pushStack (resolveIdent cfg n) s = _
    rw [hr]
  · intro h
    have hl := congrArg String.length h
    rw [String.length_append] at hl
    have hd : ("." : String).length = 1 := rfl
    rw [hd] at hl
    omega

/-- Witness for C4: the unrecognized identifier `foo` resolves to the
context field lookup `.foo`. -/
theorem claim_C4_witness :
    (exec specCfg (.ident "foo") ⟨0, [], []⟩ =
      pushStack (if hasFunctionWithName specCfg "foo" then "foo" else "." ++ "foo")
        ⟨0, [], []⟩) ∧
    ("." ++ "foo") ≠ "foo" :=
  claim_C4 specCfg "foo" ⟨0, [], []⟩ (by decide) (by decide)

/-- Counterexample for C4 as stated: the identifier `nil` is not a
recognized function, yet it does not resolve to the context field lookup
`.nil` — it is pushed as the literal `nil` itself. -/
theorem claim_C4_counterexample :
    hasFunctionWithName specCfg "nil" = false ∧
    exec specCfg (.ident "nil") ⟨0, [], []⟩ ≠ pushStack ("." ++ "nil") ⟨0, [], []⟩ ∧
    exec specCfg (.ident "nil") ⟨0, [], []⟩ = pushStack "nil" ⟨0, [], []⟩ := by
  exact ⟨by decide, by decide, by decide⟩

/-! ### Tag attribute rendering (compiler.go, `visitTag`)

`visitTag` collects the tag's parsed attributes into a name-keyed table
(a Go map, embedded as an association list with in-place update), merging
repeated `class` declarations, then emits the table in sorted name
order.  The expression transpilation of values and guards
(`visitRawInterpolation`) is abstracted as an `interp` oracle standing
for the value reference it returns; its emitted side instructions are
the subject of the transpiler embedding above. -/

/-- Embedding of `parser.Attribute`, the fields read by `visitTag`. -/
structure TagAttr where
  Name : String
  Value : String
  IsRaw : Bool
  Condition : String
  deriving DecidableEq, Repr

/-- Embedding of the local `attrib` struct of `visitTag`. -/
structure CAttrib where
  value : String
  condition : String
  deriving DecidableEq, Repr

/-- Lookup in the embedded attribute map (`attribs[name]`). -/
def alookup : List (String × CAttrib) → String → Option CAttrib
  | [], _ => none
  | (k, v) :: rest, name => if k = name then some v else alookup rest name

/-- Update/insert in the embedded attribute map (`attribs[name] = attr`,
and the in-place mutation of the merged `class` entry). -/
def aset : List (String × CAttrib) → String → CAttrib → List (String × CAttrib)
  | [], name, v => [(name, v)]
  | (k, w) :: rest, name, v =>
    if k = name then (k, v) :: rest else (k, w) :: aset rest name v

/-- Embedding of `visitInterpolation`: wrap the transpiled reference in
an escaped-output action. -/
def visitInterpolation (interp : String → String) (value : String) : String :=
  "\x7b\x7b" ++ interp value ++ "\x7d\x7d"

/-- Embedding of `visitJSInterpolation`: wrap the transpiled reference
in the script-context-safe output primitive. -/
def visitJSInterpolation (interp : String → String) (value : String) : String :=
  "\x7b\x7b safeJS " ++ interp value ++ "\x7d\x7d"

/-- Embedding of `strings.Index(attr.name, "on") == 0`. -/
def startsWithOn (n : String) : Bool :=
  n.data.take 2 == "on".data

/-- Embedding of the attribute-value computation at the top of the
attribute loop of `visitTag`: non-raw values are interpolated (with the
script-safe form for `on`-prefixed names); a raw empty value stays
empty; a raw non-empty value is taken verbatim.  The final quoted arm is
unreachable (its branch has `IsRaw = true`) and is kept as written. -/
def attrValue (interp : String → String) (item : TagAttr) : String :=
  if !item.IsRaw then
    if startsWithOn item.Name then visitJSInterpolation interp item.Value
    else visitInterpolation interp item.Value
  else if item.Value = "" then ""
  else if item.IsRaw then item.Value
  else "\x7b\x7b\"" ++ item.Value ++ "\"\x7d\x7d"

/-- Embedding of the guard computation: a non-empty parsed condition is
transpiled (`visitRawInterpolation`, abstracted by `interp`). -/
def attrCond (interp : String → String) (item : TagAttr) : String :=
  if item.Condition ≠ "" then interp item.Condition else ""

/-- Conditional wrapper used by the class-merge: a contribution with a
non-empty guard is wrapped in its own conditional action. -/
def wrapIf (c v : String) : String :=
  if c ≠ "" then "\x7b\x7bif " ++ c ++ "\x7d\x7d" ++ v ++ "\x7b\x7bend\x7d\x7d" else v

/-- Embedding of one iteration of the attribute-collection loop of
`visitTag`: compute value and guard; a repeated `class` appends a
space-prefixed (and individually guard-wrapped) contribution to the
existing `class` entry, each side wrapped in its own conditional when
guarded, and the merged entry's guard is cleared; anything else
updates/inserts its own entry. -/
def processItem (interp : String → String) (tbl : List (String × CAttrib))
    (item : TagAttr) : List (String × CAttrib) :=
  let v := attrValue interp item
  let cond := attrCond interp item
  if item.Name = "class" then
    match alookup tbl "class" with
    | some prevclass =>
      let v2 := wrapIf cond (" " ++ v)
      let pv := wrapIf prevclass.condition prevclass.value
      aset tbl "class" ⟨pv ++ v2, ""⟩
    | none => aset tbl item.Name ⟨v, cond⟩
  else aset tbl item.Name ⟨v, cond⟩

/-- Embedding of the whole attribute-collection loop of `visitTag`. -/
def buildAttribs (interp : String → String) (items : List TagAttr) :
    List (String × CAttrib) :=
  items.foldl (processItem interp) []

/-- Embedding of the emission of one attribute in `visitTag`: a guarded
attribute is wrapped entirely in its conditional; an empty stored value
renders as the bare name, a non-empty one as `name="value"`. -/
def emitAttr (name : String) (a : CAttrib) : String :=
  (if a.condition ≠ "" then "\x7b\x7bif " ++ a.condition ++ "\x7d\x7d" else "")
  ++ (if a.value = "" then " " ++ name else " " ++ name ++ "=\"" ++ a.value ++ "\"")
  ++ (if a.condition ≠ "" then "\x7b\x7bend\x7d\x7d" else "")

/-- Name slice collected from the attribute map (`for k := range attribs`). -/
def attrNames (tbl : List (String × CAttrib)) : List String :=
  tbl.map Prod.fst

/-- Embedding of `sort.Strings(attrNames)`. -/
def sortedAttrNames (tbl : List (String × CAttrib)) : List String :=
  sortStrings (attrNames tbl)

/-- Embedding of the attribute-emission loop of `visitTag`: emit every
collected attribute, in sorted name order. -/
def renderAttribs (tbl : List (String × CAttrib)) : String :=
  String.join ((sortedAttrNames tbl).map (fun n =>
    match alookup tbl n with
    | some a => emitAttr n a
    | none => ""))

/-- Claim C5: repeated `class` declarations on one tag concatenate
space-joined in declaration order instead of overwriting, each guarded
contribution being individually wrapped in its own conditional; in
particular `class="a"` then `class="b"` renders ` class="a b"`. -/
theorem claim_C5 :
    (∀ (interp : String → String) tbl (item : TagAttr) prev,
        item.Name = "class" → alookup tbl "class" = some prev →
        processItem interp tbl item =
          aset tbl "class"
            ⟨wrapIf prev.condition prev.value ++
              wrapIf (attrCond interp item) (" " ++ attrValue interp item), ""⟩) ∧
    renderAttribs (buildAttribs id [⟨"class", "a", true, ""⟩, ⟨"class", "b", true, ""⟩]) =
      " class=\"a b\"" ∧
    renderAttribs (buildAttribs id [⟨"class", "a", true, ""⟩, ⟨"class", "b", true, "g"⟩]) =
      " class=\"a\x7b\x7bif g\x7d\x7d b\x7b\x7bend\x7d\x7d\"" ∧
    renderAttribs (buildAttribs id [⟨"class", "a", true, "h"⟩, ⟨"class", "b", true, ""⟩]) =
      " class=\"\x7b\x7bif h\x7d\x7da\x7b\x7bend\x7d\x7d b\"" := by
  refine ⟨?_, by decide, by decide, by decide⟩
  intro interp tbl item prev hname hprev
  simp [processItem, hname, hprev]

/-- Witness for C5: the merge rule applied at a concrete table holding
`class="a"` and an incoming guarded `class="b"`. -/
theorem claim_C5_witness :
    processItem id [("class", ⟨"a", ""⟩)] ⟨"class", "b", true, "g"⟩ =
      aset [("class", ⟨"a", ""⟩)] "class"
        ⟨wrapIf ("" : String) "a" ++
          wrapIf (attrCond id ⟨"class", "b", true, "g"⟩)
            (" " ++ attrValue id ⟨"class", "b", true, "g"⟩), ""⟩ :=
  (claim_C5).1 id [("class", ⟨"a", ""⟩)] ⟨"class", "b", true, "g"⟩ ⟨"a", ""⟩ rfl rfl

/-- Claim C6: attributes are emitted in byte-lexicographically sorted
name order, independent of declaration order; two tables with the same
names (as a multiset) emit in the same order, and the same two-attribute
tag declared in either order renders identically. -/
theorem claim_C6 :
    (∀ tbl, List.Sorted strLeP (sortedAttrNames tbl)) ∧
    (∀ t1 t2, (attrNames t1).Perm (attrNames t2) →
      sortedAttrNames t1 = sortedAttrNames t2) ∧
    renderAttribs (buildAttribs id [⟨"title", "t", true, ""⟩, ⟨"style", "s", true, ""⟩]) =
      " style=\"s\" title=\"t\"" ∧
    renderAttribs (buildAttribs id [⟨"style", "s", true, ""⟩, ⟨"title", "t", true, ""⟩]) =
      " style=\"s\" title=\"t\"" :=
  ⟨fun _ => sortStrings_sorted _,
   fun _ _ h => sortStrings_eq_of_perm _ _ h,
   by decide, by decide⟩

/-- Witness for C6: two concrete tables whose name multisets agree emit
their names in the same sorted order. -/
theorem claim_C6_witness :
    sortedAttrNames [("title", ⟨"t", ""⟩), ("style", ⟨"s", ""⟩)] =
      sortedAttrNames [("style", ⟨"s", ""⟩), ("title", ⟨"t", ""⟩)] :=
  (claim_C6).2.1 [("title", ⟨"t", ""⟩), ("style", ⟨"s", ""⟩)]
    [("style", ⟨"s", ""⟩), ("title", ⟨"t", ""⟩)] (by decide)

/-- Counterexample for C7 as stated: a present-but-empty NON-raw
attribute does not render as a bare boolean attribute — its empty value
is sent through expression interpolation (here abstracted by an oracle
returning the reference `x`; in the actual code the empty expression is
a fatal parse error), producing a value part, never the bare name. -/
theorem claim_C7_counterexample :
    renderAttribs (buildAttribs (fun _ => "x") [⟨"disabled", "", false, ""⟩]) ≠
      " disabled" ∧
    renderAttribs (buildAttribs (fun _ => "x") [⟨"disabled", "", false, ""⟩]) =
      " disabled=\"\x7b\x7bx\x7d\x7d\"" :=
  ⟨by decide, by decide⟩

/-- Claim C7, amended: a present-but-empty RAW attribute renders as a
bare boolean attribute (the name alone, wrapped only in its guard when
one is present); an empty non-raw value instead goes through expression
interpolation, which is a fatal error on the empty expression. -/
theorem claim_C7 (interp : String → String) (item : TagAttr)
    (hr : item.IsRaw = true) (hv : item.Value = "") :
    attrValue interp item = "" ∧
    renderAttribs (buildAttribs interp [item]) =
      (if attrCond interp item ≠ "" then
        "\x7b\x7bif " ++ attrCond interp item ++ "\x7d\x7d" ++ (" " ++ item.Name) ++
          "\x7b\x7bend\x7d\x7d"
      else " " ++ item.Name) := by
  have hav : attrValue interp item = "" := by
    simp [attrValue, hr, hv]
  refine ⟨hav, ?_⟩
  have hb : buildAttribs interp [item] = [(item.Name, ⟨"", attrCond interp item⟩)] := by
    simp [buildAttribs, processItem, hav, alookup, aset, ite_self]
  rw [hb]
  simp only [renderAttribs, sortedAttrNames, attrNames, List.map_cons, List.map_nil,
    sortStrings, insertSorted, alookup, if_pos rfl, List.map]
  by_cases hc : attrCond interp item = "" <;> simp [emitAttr, hc, String.join]

/-- Witness for C7: the raw, empty, unguarded attribute `name` (the
`div[name]` test case) renders as the bare ` name`. -/
theorem claim_C7_witness :
    attrValue id ⟨"name", "", true, ""⟩ = "" ∧
    renderAttribs (buildAttribs id [⟨"name", "", true, ""⟩]) =
      (if attrCond id ⟨"name", "", true, ""⟩ ≠ "" then
        "\x7b\x7bif " ++ attrCond id ⟨"name", "", true, ""⟩ ++ "\x7d\x7d" ++
          (" " ++ "name") ++ "\x7b\x7bend\x7d\x7d"
      else " " ++ "name") := by
  exact claim_C7 id ⟨"name", "", true, ""⟩ rfl rfl

/-- Claim C10: a non-raw attribute whose name begins with `on` has its
value wrapped in the script-context-safe `safeJS` interpolation; any
other non-raw attribute gets plain escaped interpolation. -/
theorem claim_C10 (interp : String → String) (item : TagAttr)
    (h : item.IsRaw = false) :
    (startsWithOn item.Name = true →
      attrValue interp item = visitJSInterpolation interp item.Value) ∧
    (startsWithOn item.Name = false →
      attrValue interp item = visitInterpolation interp item.Value) := by
  constructor <;> intro hs <;> simp [attrValue, h, hs]

/-- Witness for C10: `onclick` gets the safeJS wrapping, `href` the
plain one. -/
theorem claim_C10_witness :
    attrValue id ⟨"onclick", "f", false, ""⟩ = "\x7b\x7b safeJS f\x7d\x7d" ∧
    attrValue id ⟨"href", "u", false, ""⟩ = "\x7b\x7bu\x7d\x7d" := by
  constructor
  · exact ((claim_C10 id ⟨"onclick", "f", false, ""⟩ rfl).1 (by decide)).trans (by decide)
  · exact ((claim_C10 id ⟨"href", "u", false, ""⟩ rfl).2 (by decide)).trans (by decide)

/-! ### Top-level compile entry points (compiler.go) -/

/-- Embedding of `CompileWriter`: the outcome of `c.visit(c.node)` is
abstracted as `visitResult` (`.error` = a panic recovered by the
deferred handler, `.ok buf` = the final internal buffer).  On a panic
the deferred recover sets the returned error and control never reaches
the write to `out`; on success a trailing newline is added to a
non-empty buffer and the buffer is flushed to `out`. -/
def CompileWriterGo (visitResult : Except String String) (out : String) :
    Option String × String :=
  match visitResult with
  | .error e => (some e, out)
  | .ok buf =>
    let buf2 := if buf.length > 0 then buf ++ "\n" else buf
    (none, out ++ buf2)

/-- Embedding of `CompileString`: run `CompileWriter` against a fresh
buffer; on error return the empty string with the error, otherwise the
buffer contents. -/
def CompileStringGo (visitResult : Except String String) : String × Option String :=
  match CompileWriterGo visitResult "" with
  | (some e, _) => ("", some e)
  | (none, outContent) => (outContent, none)

/-- Claim C9: when compilation fails, `CompileWriter` returns the error
with the caller-supplied writer untouched, and `CompileString` returns
the empty string together with the error — no partial output. -/
theorem claim_C9 (visitResult : Except String String) (out : String)
    (e : String) (h : visitResult = .error e) :
    CompileWriterGo visitResult out = (some e, out) ∧
    CompileStringGo visitResult = ("", some e) := by
  subst h
  exact ⟨rfl, rfl⟩

/-- Witness for C9: a concrete failed compilation leaves a concrete
writer unchanged and yields the empty string with the error. -/
theorem claim_C9_witness :
    CompileWriterGo (.error "Jade Error: boom") "already-there" =
      (some "Jade Error: boom", "already-there") ∧
    CompileStringGo (.error "Jade Error: boom") = ("", some "Jade Error: boom") :=
  claim_C9 (.error "Jade Error: boom") "already-there" "Jade Error: boom" rfl

end Jade
